import Mathlib

/-!
Verification of the repository's specification against a shallow embedding.

The repository ships one source file, `cmd/restic/main.go` — the CLI entry
point.  Its functions (`open`, `create`, `readPassword`, `CmdInit.Execute`,
`OpenRepo`) are embedded directly from the source below.  The storage and
key-management core that `main.go` calls (packages `backend`, `backend/local`,
`backend/sftp`, `repository`) is not under `src/`; those components are
modelled from the spec (§3, §4.1–§4.4, §6, §7), and every such definition is
marked `Modelled from the spec:` in its doc comment.
-/

namespace Restic

/-! ## Backend object store (modelled from the spec, §4.1–§4.2) -/

/-- Modelled from the spec: blob types of the content-addressed store
(§3 "Blobs are typed (e.g., data, key-record, config, index, lock)").
The `backend` package is not under `src/`. -/
inductive BlobType
  | data
  | key
  | config
  | index
  | lock
deriving DecidableEq, Repr

/-- Blob identifiers: content-derived byte strings (§3). -/
abbrev Id := List Nat

/-- Blob contents: opaque byte sequences (§3). -/
abbrev Bytes := List Nat

/-- Modelled from the spec: the abstract state of one backend's storage —
a finite association of (type, identifier) keys to blob contents (§4.1).
The `backend/local` package is not under `src/`. -/
abbrev Store := List ((BlobType × Id) × Bytes)

/-- Modelled from the spec: the content-derived identifier (§3, glossary:
"identifier is derived deterministically from content (e.g., a cryptographic
digest)").  The ideal collision-free digest is modelled as an injective
function of the content. -/
def digest (c : Bytes) : Id := c.length :: c

theorem digest_injective : Function.Injective digest := by
  intro a b h
  exact (List.cons.injEq _ _ _ _ ▸ h).2

/-- Modelled from the spec: `Get(type, id)` returns a blob's full content,
`none` standing for the NotFound error (§4.1). -/
def getBlob (st : Store) (t : BlobType) (i : Id) : Option Bytes :=
  (st.find? fun e => e.1 = (t, i)).map (·.2)

/-- Modelled from the spec: outcome of a `Put`.  Per §4.1 an existing id is
"a no-op success (idempotent) rather than an error"; medium IOErrors are
environmental and outside the model, so no error constructor exists. -/
inductive PutOutcome
  | wrote
  | existedNoop
deriving DecidableEq, Repr

/-- Modelled from the spec: `Put(type, id, bytes)` with its outcome (§4.1). -/
def putBlobR (st : Store) (t : BlobType) (i : Id) (d : Bytes) :
    PutOutcome × Store :=
  if (getBlob st t i).isSome then (.existedNoop, st)
  else (.wrote, st ++ [((t, i), d)])

/-- Modelled from the spec: the store after a `Put` (§4.1). -/
def putBlob (st : Store) (t : BlobType) (i : Id) (d : Bytes) : Store :=
  (putBlobR st t i d).2

/-- Modelled from the spec: `List(type)` enumerates all stored identifiers of
a type (§4.1). -/
def listType (st : Store) (t : BlobType) : List Id :=
  (st.filter fun e => e.1.1 = t).map (·.1.2)

/-- Modelled from the spec: `Test(type, id)` — existence check (§4.1). -/
def testBlob (st : Store) (t : BlobType) (i : Id) : Bool :=
  (getBlob st t i).isSome

/-- Modelled from the spec: `Remove(type, id)`; `none` stands for the
NotFound error (§4.1). -/
def removeBlob (st : Store) (t : BlobType) (i : Id) : Option Store :=
  if (getBlob st t i).isSome then
    some (st.filter fun e => ¬(e.1 = (t, i)))
  else none

/-- The empty storage left by a freshly created, not yet initialized
backend. -/
def emptyStore : Store := []

/-- Content-addressing invariant of a store: every blob is filed under the
digest of its content (§3 "content-addressing invariant"). -/
def WF (st : Store) : Prop := ∀ e ∈ st, e.1.2 = digest e.2

/-! ### Basic store lemmas -/

@[simp] theorem getBlob_nil (t : BlobType) (i : Id) :
    getBlob emptyStore t i = none := rfl

theorem getBlob_cons (e : (BlobType × Id) × Bytes) (st : Store)
    (t : BlobType) (i : Id) :
    getBlob (e :: st) t i =
      if e.1 = (t, i) then some e.2 else getBlob st t i := by
  by_cases h : e.1 = (t, i) <;> simp [getBlob, List.find?_cons, h]

theorem listType_nil (t : BlobType) : listType emptyStore t = [] := rfl

theorem listType_cons (e : (BlobType × Id) × Bytes) (st : Store)
    (t : BlobType) :
    listType (e :: st) t =
      if e.1.1 = t then e.1.2 :: listType st t else listType st t := by
  by_cases h : e.1.1 = t <;> simp [listType, List.filter_cons, h]

theorem isSome_map_eq {α β : Type} (f : α → β) (o : Option α) :
    (o.map f).isSome = o.isSome := by
  cases o <;> rfl

theorem getBlob_append_single (st : Store) (t : BlobType) (i : Id) (d : Bytes)
    (h : getBlob st t i = none) :
    getBlob (st ++ [((t, i), d)]) t i = some d := by
  unfold getBlob at h ⊢
  rw [List.find?_append]
  cases hf : st.find? (fun e => e.1 = (t, i)) with
  | none => simp [List.find?_cons]
  | some e => rw [hf] at h; simp at h

theorem mem_listType_iff (st : Store) (t : BlobType) (i : Id) :
    i ∈ listType st t ↔ (getBlob st t i).isSome := by
  unfold listType getBlob
  rw [isSome_map_eq, List.find?_isSome]
  constructor
  · intro h
    rcases List.mem_map.mp h with ⟨e, he, hei⟩
    rcases List.mem_filter.mp he with ⟨hmem, hty⟩
    refine ⟨e, hmem, ?_⟩
    have : e.1.1 = t := by simpa using hty
    simp [Prod.ext_iff, this, hei]
  · rintro ⟨e, hmem, hp⟩
    have : e.1 = (t, i) := by simpa using hp
    refine List.mem_map.mpr ⟨e, List.mem_filter.mpr ⟨hmem, ?_⟩, ?_⟩
    · simp [this]
    · simp [this]

theorem getBlob_putBlob_isSome (st : Store) (t : BlobType) (i : Id)
    (d : Bytes) : (getBlob (putBlob st t i d) t i).isSome := by
  unfold putBlob putBlobR
  by_cases h : (getBlob st t i).isSome
  · simp [h]
  · simp only [h, if_false]
    have hnone : getBlob st t i = none := Option.not_isSome_iff_eq_none.mp h
    simp [getBlob_append_single st t i d hnone]

theorem putBlob_of_isSome (st : Store) (t : BlobType) (i : Id) (d : Bytes)
    (h : (getBlob st t i).isSome) : putBlob st t i d = st := by
  simp [putBlob, putBlobR, h]

theorem putBlobR_of_isSome (st : Store) (t : BlobType) (i : Id) (d : Bytes)
    (h : (getBlob st t i).isSome) : (putBlobR st t i d).1 = .existedNoop := by
  simp [putBlobR, h]

theorem listType_append_single (st : Store) (t : BlobType) (i : Id)
    (d : Bytes) : listType (st ++ [((t, i), d)]) t = listType st t ++ [i] := by
  unfold listType
  rw [List.filter_append, List.map_append]
  simp [List.filter_cons]

theorem count_listType_putBlob (st : Store) (t : BlobType) (i : Id)
    (d : Bytes) (h : (listType st t).count i ≤ 1) :
    (listType (putBlob st t i d) t).count i = 1 := by
  unfold putBlob putBlobR
  by_cases hs : (getBlob st t i).isSome
  · have hmem : i ∈ listType st t := (mem_listType_iff st t i).mpr hs
    have hpos : 0 < (listType st t).count i := List.count_pos_iff.mpr hmem
    simp only [hs, if_true]
    omega
  · have hmem : i ∉ listType st t := fun hm =>
      hs ((mem_listType_iff st t i).mp hm)
    have hz : (listType st t).count i = 0 :=
      List.count_eq_zero_of_not_mem hmem
    rw [if_neg hs]
    show ((listType (st ++ [((t, i), d)]) t).count i) = 1
    rw [listType_append_single, List.count_append, hz]
    simp

/-! ## Key management and repository identity (modelled from the spec, §4.4)

The `repository` package is not under `src/`; the definitions below model
its key derivation, authenticated encryption, key records and the
create/open state machine from the spec's §4.4, §6 and §7. -/

/-- Modelled from the spec: the password-derived key (§4.4 "Derives a
password key from the supplied password and the fresh salt using a
memory/CPU-hard derivation function (tunable cost parameters stored
alongside the salt)").  The ideal derivation function is modelled as the
injective packaging of its inputs: distinct passwords (or salts, or cost
parameters) yield distinct derived keys, and the same inputs always
reproduce the same key. -/
structure DKey where
  pw : String
  salt : Nat
  cost : Nat
deriving DecidableEq, Repr

/-- Byte rendering of a string (one code point per entry). -/
def strBytes (s : String) : Bytes := s.data.map Char.toNat

theorem char_toNat_injective : Function.Injective Char.toNat := by
  intro c d hcd
  have h2 := congrArg Char.ofNat hcd
  rwa [Char.ofNat_toNat, Char.ofNat_toNat] at h2

theorem strBytes_injective : Function.Injective strBytes := by
  intro a b h
  have hdata : a.data = b.data :=
    List.map_injective_iff.mpr char_toNat_injective h
  cases a; cases b
  exact congrArg String.mk hdata

/-- Byte rendering of a derived key, used as MAC keying material. -/
def keyEnc (k : DKey) : Bytes :=
  k.salt :: k.cost :: (strBytes k.pw).length :: strBytes k.pw

theorem keyEnc_injective : Function.Injective keyEnc := by
  intro a b h
  unfold keyEnc at h
  injection h with hsalt h
  injection h with hcost h
  injection h with hlen hpw
  have hpw2 : a.pw = b.pw := strBytes_injective hpw
  cases a; cases b
  simp_all

/-- Key-stream offset used by the (idealized) cipher. -/
def pad (k : DKey) : Nat := (keyEnc k).sum + 1

/-- Modelled from the spec: the encryption half of the authenticated
encryption scheme (§4.4) — an idealized key-dependent bijection on byte
sequences. -/
def encBytes (k : DKey) (m : Bytes) : Bytes := m.map (· + pad k)

/-- Inverse of `encBytes` under the same key. -/
def decBytes (k : DKey) (c : Bytes) : Bytes := c.map (· - pad k)

theorem decBytes_encBytes (k : DKey) (m : Bytes) :
    decBytes k (encBytes k m) = m := by
  unfold decBytes encBytes
  rw [List.map_map]
  have hid : ((fun b => b - pad k) ∘ fun b => b + pad k) = id := by
    funext b
    simp
  rw [hid, List.map_id]

/-- Modelled from the spec: an authenticated-encryption container — the
ciphertext of the protected payload "plus an integrity tag" (§3 "Key
record", §4.4).  The tag is modelled as an ideal (unforgeable,
collision-free) MAC: the byte rendering of the key followed by the
ciphertext, so a tag verifies if and only if both the key and the
ciphertext are exactly the ones that produced it. -/
structure SealedBox where
  body : Bytes
  tag : Bytes
deriving DecidableEq, Repr

/-- Modelled from the spec: authenticated encryption of a payload under a
derived key (§4.4 "Encrypts the master key set under the password-derived
key with an authenticated encryption scheme … or encryption plus a separate
MAC over ciphertext"). -/
def aeSeal (k : DKey) (m : Bytes) : SealedBox :=
  ⟨encBytes k m, keyEnc k ++ encBytes k m⟩

/-- Modelled from the spec: authenticated decryption — the integrity check
is re-computing the tag from the candidate key and the stored ciphertext;
`none` is an integrity failure (§4.4 "attempts authenticated decryption …
accepts the first record whose integrity check passes"). -/
def aeUnseal (k : DKey) (b : SealedBox) : Option Bytes :=
  if b.tag = keyEnc k ++ b.body then some (decBytes k b.body) else none

theorem aeUnseal_aeSeal (k : DKey) (m : Bytes) :
    aeUnseal k (aeSeal k m) = some m := by
  simp [aeUnseal, aeSeal, decBytes_encBytes]

theorem aeUnseal_aeSeal_ne (k k' : DKey) (m : Bytes) (h : k ≠ k') :
    aeUnseal k' (aeSeal k m) = none := by
  unfold aeUnseal aeSeal
  rw [if_neg]
  intro hEq
  simp only at hEq
  exact h (keyEnc_injective (List.append_cancel_right hEq))

theorem aeUnseal_tampered (k : DKey) (body' tag : Bytes)
    (h : tag = keyEnc k ++ body' → False) :
    aeUnseal k ⟨body', tag⟩ = none := by
  unfold aeUnseal
  exact if_neg h

/-- Modelled from the spec: the master key set — "the repository-wide
symmetric encryption key and message-authentication key" (§3). -/
structure MasterKeys where
  encKey : Nat
  macKey : Nat
deriving DecidableEq, Repr

/-- Serialization of the master key set, the payload protected by a key
record. -/
def mkBytes (mk : MasterKeys) : Bytes := [mk.encKey, mk.macKey]

/-- Parse of `mkBytes`. -/
def parseMK : Bytes → Option MasterKeys
  | [e, a] => some ⟨e, a⟩
  | _ => none

theorem parseMK_mkBytes (mk : MasterKeys) : parseMK (mkBytes mk) = some mk :=
  rfl

/-- Modelled from the spec: a key record — "a password-derived
key-derivation parameter set (salt, cost parameters), and the master key
set … encrypted under the password-derived key, plus an integrity tag"
(§3). -/
structure KeyRecord where
  salt : Nat
  cost : Nat
  box : SealedBox
deriving DecidableEq, Repr

/-- Persisted byte layout of a key record: salt, cost, ciphertext length,
then ciphertext followed by the integrity tag.  Bytes 3 … 3+n−1 are the
ciphertext of the master key set. -/
def encKR (kr : KeyRecord) : Bytes :=
  kr.salt :: kr.cost :: kr.box.body.length :: (kr.box.body ++ kr.box.tag)

/-- Parse of the persisted key-record layout. -/
def parseKeyRecord : Bytes → Option KeyRecord
  | salt :: cost :: n :: rest =>
    if n ≤ rest.length then some ⟨salt, cost, ⟨rest.take n, rest.drop n⟩⟩
    else none
  | _ => none

theorem parseKeyRecord_encKR (kr : KeyRecord) :
    parseKeyRecord (encKR kr) = some kr := by
  obtain ⟨salt, cost, body, tag⟩ := kr
  show parseKeyRecord (salt :: cost :: body.length :: (body ++ tag)) = _
  simp only [parseKeyRecord]
  rw [if_pos (by simp)]
  rw [List.take_left, List.drop_left]

/-- The persisted key-record blob written by repository creation for
password `pw`, master keys `mk`, and derivation parameters
`salt`/`cost`. -/
def keyBlob (pw : String) (mk : MasterKeys) (salt cost : Nat) : Bytes :=
  encKR ⟨salt, cost, aeSeal ⟨pw, salt, cost⟩ (mkBytes mk)⟩

/-- The ciphertext (encrypted master key set) inside the persisted key
record. -/
def cipherBody (pw : String) (mk : MasterKeys) (salt cost : Nat) : Bytes :=
  encBytes ⟨pw, salt, cost⟩ (mkBytes mk)

/-- Modelled from the spec: the persistence sequence of repository creation
(§4.4 Create).  The fresh randomness — repository identifier `rid`, master
keys `mk`, salt — is passed in explicitly.  Per §4.4 the key record and the
configuration are written last, after all generation succeeds; the
configuration blob carries the repository identifier.  The list holds the
backend states in order: before any write, after the key record, and after
the configuration (the completed repository). -/
def repoCreateSteps (pw : String) (rid : Bytes) (mk : MasterKeys)
    (salt cost : Nat) : List Store :=
  let kb := keyBlob pw mk salt cost
  let st1 := putBlob emptyStore .key (digest kb) kb
  let st2 := putBlob st1 .config (digest rid) rid
  [emptyStore, st1, st2]

/-- Modelled from the spec: `CreateRepository(location, password)` (§6),
returning the completed backend state and the repository identifier it
produced. -/
def repoCreate (pw : String) (rid : Bytes) (mk : MasterKeys)
    (salt cost : Nat) : Store × Bytes :=
  ((repoCreateSteps pw rid mk salt cost).getLast (by simp [repoCreateSteps]),
    rid)

/-- Modelled from the spec: errors of repository open (§7). -/
inductive OpenError
  | NotFound
  | InvalidPassword
  | CorruptRepository
deriving DecidableEq, Repr

/-- Modelled from the spec: the trial-decryption loop of Open (§4.4 "for
each, derives a candidate password key using that record's stored salt/cost
parameters, attempts authenticated decryption of the embedded master key
set, and accepts the first record whose integrity check passes").  Records
that cannot be fetched or parsed are skipped like records whose integrity
check fails. -/
def tryKeys (st : Store) (pw : String) : List Id → Option MasterKeys
  | [] => none
  | kid :: rest =>
    match (getBlob st .key kid).bind parseKeyRecord with
    | none => tryKeys st pw rest
    | some kr =>
      match (aeUnseal ⟨pw, kr.salt, kr.cost⟩ kr.box).bind parseMK with
      | none => tryKeys st pw rest
      | some mk => some mk

/-- Modelled from the spec: `OpenRepository(location, password)` (§4.4 Open,
§6, §7).  A repository "is either fully initialized (configuration blob +
at least one key record exist) or does not exist" (§3); a backend holding
no configuration blob or no key record is therefore reported NotFound.
Otherwise the key records are tried in turn; if none decrypts the result is
InvalidPassword; on success the configuration blob (the repository
identifier) is returned with the unlocked master keys. -/
def repoOpen (st : Store) (pw : String) :
    Except OpenError (MasterKeys × Bytes) :=
  match listType st .config with
  | [] => .error .NotFound
  | [cid] =>
    if listType st .key = [] then .error .NotFound
    else
      match tryKeys st pw (listType st .key) with
      | none => .error .InvalidPassword
      | some mk =>
        match getBlob st .config cid with
        | some cfg => .ok (mk, cfg)
        | none => .error .CorruptRepository
  | _ :: _ :: _ => .error .CorruptRepository

/-- In-place corruption of one stored blob: the bytes filed under
`(t, i)` are rewritten by `f`; all other blobs are untouched. -/
def corruptBlob (st : Store) (t : BlobType) (i : Id) (f : Bytes → Bytes) :
    Store :=
  st.map fun e => if e.1 = (t, i) then (e.1, f e.2) else e

/-! ### Computation of open on created (and partially created) stores -/

theorem repoCreate_store (pw : String) (rid : Bytes) (mk : MasterKeys)
    (salt cost : Nat) :
    (repoCreate pw rid mk salt cost).1 =
      [((.key, digest (keyBlob pw mk salt cost)), keyBlob pw mk salt cost),
       ((.config, digest rid), rid)] := rfl

theorem listType_create_config (pw : String) (rid : Bytes) (mk : MasterKeys)
    (salt cost : Nat) :
    listType (repoCreate pw rid mk salt cost).1 .config = [digest rid] := rfl

theorem listType_create_key (pw : String) (rid : Bytes) (mk : MasterKeys)
    (salt cost : Nat) :
    listType (repoCreate pw rid mk salt cost).1 .key =
      [digest (keyBlob pw mk salt cost)] := rfl

theorem getBlob_create_key (pw : String) (rid : Bytes) (mk : MasterKeys)
    (salt cost : Nat) :
    getBlob (repoCreate pw rid mk salt cost).1 .key
      (digest (keyBlob pw mk salt cost)) = some (keyBlob pw mk salt cost) := by
  rw [repoCreate_store, getBlob_cons, if_pos rfl]

theorem getBlob_create_config (pw : String) (rid : Bytes) (mk : MasterKeys)
    (salt cost : Nat) :
    getBlob (repoCreate pw rid mk salt cost).1 .config (digest rid) =
      some rid := by
  rw [repoCreate_store, getBlob_cons, if_neg (by simp), getBlob_cons,
    if_pos rfl]

theorem parseKeyRecord_keyBlob (pw : String) (mk : MasterKeys)
    (salt cost : Nat) :
    parseKeyRecord (keyBlob pw mk salt cost) =
      some ⟨salt, cost, aeSeal ⟨pw, salt, cost⟩ (mkBytes mk)⟩ :=
  parseKeyRecord_encKR _

theorem tryKeys_create_right (pw : String) (rid : Bytes) (mk : MasterKeys)
    (salt cost : Nat) :
    tryKeys (repoCreate pw rid mk salt cost).1 pw
      [digest (keyBlob pw mk salt cost)] = some mk := by
  simp only [tryKeys, getBlob_create_key, Option.some_bind,
    parseKeyRecord_keyBlob, aeUnseal_aeSeal, parseMK_mkBytes]

theorem repoOpen_create_right (pw : String) (rid : Bytes) (mk : MasterKeys)
    (salt cost : Nat) :
    repoOpen (repoCreate pw rid mk salt cost).1 pw = .ok (mk, rid) := by
  unfold repoOpen
  rw [listType_create_config, listType_create_key]
  simp only [List.cons_ne_nil, if_neg, tryKeys_create_right,
    getBlob_create_config]
  simp

theorem tryKeys_create_wrong (pw pw2 : String) (rid : Bytes)
    (mk : MasterKeys) (salt cost : Nat) (h : pw ≠ pw2) :
    tryKeys (repoCreate pw rid mk salt cost).1 pw2
      [digest (keyBlob pw mk salt cost)] = none := by
  have hne : (⟨pw, salt, cost⟩ : DKey) ≠ ⟨pw2, salt, cost⟩ := by
    intro hEq
    exact h (congrArg DKey.pw hEq)
  simp only [tryKeys, getBlob_create_key, Option.some_bind,
    parseKeyRecord_keyBlob, aeUnseal_aeSeal_ne _ _ _ hne, Option.none_bind]

theorem repoOpen_create_wrong (pw pw2 : String) (rid : Bytes)
    (mk : MasterKeys) (salt cost : Nat) (h : pw ≠ pw2) :
    repoOpen (repoCreate pw rid mk salt cost).1 pw2 =
      .error .InvalidPassword := by
  unfold repoOpen
  rw [listType_create_config, listType_create_key]
  simp only [List.cons_ne_nil, if_neg, tryKeys_create_wrong pw pw2 rid mk
    salt cost h]
  simp

theorem corruptBlob_create (pw : String) (rid : Bytes) (mk : MasterKeys)
    (salt cost : Nat) (f : Bytes → Bytes) :
    corruptBlob (repoCreate pw rid mk salt cost).1 .key
        (digest (keyBlob pw mk salt cost)) f =
      [((.key, digest (keyBlob pw mk salt cost)), f (keyBlob pw mk salt cost)),
       ((.config, digest rid), rid)] := by
  rw [repoCreate_store]
  simp only [corruptBlob, List.map_cons, List.map_nil]
  simp

theorem parseKeyRecord_layout (salt cost : Nat) (body tag : Bytes) :
    parseKeyRecord (salt :: cost :: body.length :: (body ++ tag)) =
      some ⟨salt, cost, ⟨body, tag⟩⟩ := by
  simp only [parseKeyRecord]
  rw [if_pos (by simp)]
  rw [List.take_left, List.drop_left]

theorem keyBlob_set (pw : String) (mk : MasterKeys) (salt cost i : Nat)
    (b' : Nat) (h : i < (cipherBody pw mk salt cost).length) :
    (keyBlob pw mk salt cost).set (i + 3) b' =
      salt :: cost :: (cipherBody pw mk salt cost).length ::
        ((cipherBody pw mk salt cost).set i b' ++
          (keyEnc ⟨pw, salt, cost⟩ ++ cipherBody pw mk salt cost)) := by
  show (salt :: cost :: (cipherBody pw mk salt cost).length ::
      (cipherBody pw mk salt cost ++
        (keyEnc ⟨pw, salt, cost⟩ ++ cipherBody pw mk salt cost))).set
      (i + 3) b' = _
  rw [show i + 3 = (i + 2) + 1 from rfl, List.set_cons_succ,
    show i + 2 = (i + 1) + 1 from rfl, List.set_cons_succ,
    List.set_cons_succ, List.set_append_left _ _ h]

theorem aeUnseal_corrupt (k : DKey) (m : Bytes) (i : Nat) (b' : Nat)
    (h : i < (encBytes k m).length) (hb : b' ≠ (encBytes k m).getD i 0) :
    aeUnseal k ⟨(encBytes k m).set i b', keyEnc k ++ encBytes k m⟩ =
      none := by
  unfold aeUnseal
  rw [if_neg]
  intro hEq
  simp only at hEq
  have hbody : encBytes k m = (encBytes k m).set i b' :=
    List.append_cancel_left hEq
  have hq := congrArg (fun l => l[i]?) hbody
  simp only at hq
  rw [List.getElem?_set_self (by simpa using h),
    List.getElem?_eq_getElem h] at hq
  apply hb
  rw [List.getD_eq_getElem?_getD, List.getElem?_eq_getElem h,
    Option.getD_some]
  exact (Option.some.inj hq).symm

theorem tryKeys_corrupt (pw : String) (rid : Bytes) (mk : MasterKeys)
    (salt cost i : Nat) (b' : Nat)
    (h : i < (cipherBody pw mk salt cost).length)
    (hb : b' ≠ (cipherBody pw mk salt cost).getD i 0) :
    tryKeys
      (corruptBlob (repoCreate pw rid mk salt cost).1 .key
        (digest (keyBlob pw mk salt cost)) (fun bs => bs.set (i + 3) b'))
      pw [digest (keyBlob pw mk salt cost)] = none := by
  have hget : getBlob
      (corruptBlob (repoCreate pw rid mk salt cost).1 .key
        (digest (keyBlob pw mk salt cost)) (fun bs => bs.set (i + 3) b'))
      .key (digest (keyBlob pw mk salt cost)) =
      some ((keyBlob pw mk salt cost).set (i + 3) b') := by
    rw [corruptBlob_create, getBlob_cons, if_pos rfl]
  have hlen : ((cipherBody pw mk salt cost).set i b').length =
      (cipherBody pw mk salt cost).length := List.length_set _ _ _
  have hparse : parseKeyRecord ((keyBlob pw mk salt cost).set (i + 3) b') =
      some ⟨salt, cost,
        ⟨(cipherBody pw mk salt cost).set i b',
         keyEnc ⟨pw, salt, cost⟩ ++ cipherBody pw mk salt cost⟩⟩ := by
    rw [keyBlob_set pw mk salt cost i b' h, ← hlen,
      parseKeyRecord_layout]
  have hunseal : aeUnseal ⟨pw, salt, cost⟩
      ⟨(cipherBody pw mk salt cost).set i b',
       keyEnc ⟨pw, salt, cost⟩ ++ cipherBody pw mk salt cost⟩ = none :=
    aeUnseal_corrupt ⟨pw, salt, cost⟩ (mkBytes mk) i b' h hb
  simp only [tryKeys, hget, Option.some_bind, hparse, hunseal,
    Option.none_bind]

theorem listType_corrupt_config (pw : String) (rid : Bytes) (mk : MasterKeys)
    (salt cost : Nat) (f : Bytes → Bytes) :
    listType
      (corruptBlob (repoCreate pw rid mk salt cost).1 .key
        (digest (keyBlob pw mk salt cost)) f) .config = [digest rid] := by
  rw [corruptBlob_create]
  rfl

theorem listType_corrupt_key (pw : String) (rid : Bytes) (mk : MasterKeys)
    (salt cost : Nat) (f : Bytes → Bytes) :
    listType
      (corruptBlob (repoCreate pw rid mk salt cost).1 .key
        (digest (keyBlob pw mk salt cost)) f) .key =
      [digest (keyBlob pw mk salt cost)] := by
  rw [corruptBlob_create]
  rfl

theorem repoOpen_corrupt (pw : String) (rid : Bytes) (mk : MasterKeys)
    (salt cost i : Nat) (b' : Nat)
    (h : i < (cipherBody pw mk salt cost).length)
    (hb : b' ≠ (cipherBody pw mk salt cost).getD i 0) :
    repoOpen
      (corruptBlob (repoCreate pw rid mk salt cost).1 .key
        (digest (keyBlob pw mk salt cost)) (fun bs => bs.set (i + 3) b'))
      pw = .error .InvalidPassword := by
  unfold repoOpen
  rw [listType_corrupt_config, listType_corrupt_key,
    tryKeys_corrupt pw rid mk salt cost i b' h hb]
  simp

theorem tryKeys_some (st : Store) (p : String) :
    ∀ (kids : List Id) (mkr : MasterKeys), tryKeys st p kids = some mkr →
      ∃ kid ∈ kids, ∃ kr,
        (getBlob st .key kid).bind parseKeyRecord = some kr ∧
        (aeUnseal ⟨p, kr.salt, kr.cost⟩ kr.box).bind parseMK = some mkr := by
  intro kids
  induction kids with
  | nil =>
    intro mkr h
    simp [tryKeys] at h
  | cons kid rest ih =>
    intro mkr h
    rw [tryKeys] at h
    split at h
    · obtain ⟨kid2, hmem, hrest⟩ := ih mkr h
      exact ⟨kid2, List.mem_cons_of_mem _ hmem, hrest⟩
    · rename_i kr hparse
      split at h
      · obtain ⟨kid2, hmem, hrest⟩ := ih mkr h
        exact ⟨kid2, List.mem_cons_of_mem _ hmem, hrest⟩
      · rename_i mk2 huns
        simp only [Option.some.injEq] at h
        subst h
        exact ⟨kid, List.mem_cons_self _ _, kr, hparse, huns⟩

theorem repoOpen_ok_tryKeys (st : Store) (p : String) (mkr : MasterKeys)
    (cfg : Bytes) (h : repoOpen st p = .ok (mkr, cfg)) :
    tryKeys st p (listType st .key) = some mkr := by
  unfold repoOpen at h
  split at h
  · simp at h
  · split at h
    · simp at h
    · split at h
      · simp at h
      · split at h
        · rename_i mk2 htry cfg2 hget
          simp only [Except.ok.injEq, Prod.mk.injEq] at h
          rw [mk2, h.1]
        · simp at h
  · simp at h

/-! ## Claims C1, C2, C3, C7 (key management) -/

/-- C1: for every valid password P and every repository created with P, a
subsequent Open with P succeeds, and the repository identifier it returns
equals the identifier produced at creation.  (The fresh randomness of
creation — identifier, master keys, salt, cost — is universally
quantified.) -/
theorem c1_create_open_roundtrip (pw : String) (rid : Bytes)
    (mk : MasterKeys) (salt cost : Nat) :
    repoOpen (repoCreate pw rid mk salt cost).1 pw =
      .ok (mk, (repoCreate pw rid mk salt cost).2) ∧
    (repoCreate pw rid mk salt cost).2 = rid :=
  ⟨repoOpen_create_right pw rid mk salt cost, rfl⟩

/-- C2: for every pair of passwords P1 ≠ P2, creating a repository with P1
and then opening it with P2 fails with InvalidPassword — the trial
decryption loop exhausts the key records without any integrity check
passing. -/
theorem c2_wrong_password_invalid (pw1 pw2 : String) (rid : Bytes)
    (mk : MasterKeys) (salt cost : Nat) (h : pw1 ≠ pw2) :
    repoOpen (repoCreate pw1 rid mk salt cost).1 pw2 =
      .error .InvalidPassword :=
  repoOpen_create_wrong pw1 pw2 rid mk salt cost h

theorem c2_wrong_password_invalid_witness :
    ("correct-horse" : String) ≠ "wrong" ∧
    repoOpen (repoCreate "correct-horse" [1, 2] ⟨3, 4⟩ 5 6).1 "wrong" =
      .error .InvalidPassword :=
  ⟨by decide,
    c2_wrong_password_invalid "correct-horse" "wrong" [1, 2] ⟨3, 4⟩ 5 6
      (by decide)⟩

/-- C3: repository creation is atomic from the caller's point of view: at
every failure point during Create — every state of the persistence
sequence except the completed one, in particular the empty state left when
creation fails after key generation but before the key record is persisted
— a subsequent Open (with any password) fails with NotFound: it neither
reports the repository as valid nor reports CorruptRepository. -/
theorem c3_interrupted_create_notfound (pw : String) (rid : Bytes)
    (mk : MasterKeys) (salt cost : Nat) (pw2 : String) (st : Store)
    (hst : st ∈ (repoCreateSteps pw rid mk salt cost).dropLast) :
    repoOpen st pw2 = .error .NotFound := by
  unfold repoCreateSteps at hst
  simp only [List.dropLast, List.mem_cons, List.not_mem_nil, or_false]
    at hst
  rcases hst with rfl | rfl
  · rfl
  · rfl

theorem c3_interrupted_create_notfound_witness :
    emptyStore ∈ (repoCreateSteps "p" [1] ⟨1, 2⟩ 0 0).dropLast ∧
    repoOpen emptyStore "p" = .error .NotFound :=
  ⟨by decide,
    c3_interrupted_create_notfound "p" [1] ⟨1, 2⟩ 0 0 "p" emptyStore
      (by decide)⟩

/-- C7: flipping any single byte of the ciphertext of the persisted key
record (the blob bytes at offsets 3 … 3+n−1 are the encrypted master key
set) makes a subsequent Open with the correct password fail: the
authenticated-decryption integrity check trips, and the trial loop — with
no record left that verifies — reports the combined
wrong-password/corruption kind of §7.  Moreover (second conjunct) Open
never returns key material that did not pass the integrity check: whenever
it returns master keys, some listed key record parsed and its integrity
check passed, yielding exactly those keys. -/
theorem c7_corrupted_record_rejected (pw : String) (rid : Bytes)
    (mk : MasterKeys) (salt cost i : Nat) (b' : Nat)
    (h : i < (cipherBody pw mk salt cost).length)
    (hb : b' ≠ (cipherBody pw mk salt cost).getD i 0) :
    repoOpen
      (corruptBlob (repoCreate pw rid mk salt cost).1 .key
        (digest (keyBlob pw mk salt cost)) (fun bs => bs.set (i + 3) b'))
      pw = .error .InvalidPassword ∧
    (∀ (st : Store) (p : String) (mkr : MasterKeys) (cfg : Bytes),
      repoOpen st p = .ok (mkr, cfg) →
      ∃ kid ∈ listType st .key, ∃ kr,
        (getBlob st .key kid).bind parseKeyRecord = some kr ∧
        (aeUnseal ⟨p, kr.salt, kr.cost⟩ kr.box).bind parseMK = some mkr) :=
  ⟨repoOpen_corrupt pw rid mk salt cost i b' h hb,
    fun st p mkr cfg hok =>
      tryKeys_some st p (listType st .key) mkr
        (repoOpen_ok_tryKeys st p mkr cfg hok)⟩

theorem c7_corrupted_record_rejected_witness :
    (0 < (cipherBody "p" ⟨1, 2⟩ 0 0).length ∧
      (0 : Nat) ≠ (cipherBody "p" ⟨1, 2⟩ 0 0).getD 0 0) ∧
    repoOpen
      (corruptBlob (repoCreate "p" [1] ⟨1, 2⟩ 0 0).1 .key
        (digest (keyBlob "p" ⟨1, 2⟩ 0 0)) (fun bs => bs.set (0 + 3) 0))
      "p" = .error .InvalidPassword :=
  ⟨⟨by decide, by decide⟩,
    (c7_corrupted_record_rejected "p" [1] ⟨1, 2⟩ 0 0 0 0 (by decide)
      (by decide)).1⟩

/-! ## Remote transport (modelled from the spec, §4.3)

The `backend/sftp` package is not under `src/`.  Per §4.3 the remote
transport serializes each backend operation into one request/response
exchange over a byte stream with a cooperating remote process that performs
the equivalent of the local transport's operations on its side. -/

/-- Modelled from the spec: one remote request — each backend operation
maps to one request/response exchange (§4.3). -/
inductive Req
  | get (t : BlobType) (i : Id)
  | put (t : BlobType) (i : Id) (d : Bytes)
  | list (t : BlobType)
  | test (t : BlobType) (i : Id)
  | remove (t : BlobType) (i : Id)
deriving DecidableEq, Repr

/-- Modelled from the spec: one remote response (§4.3). -/
inductive Resp
  | bytes (d : Bytes)
  | ids (ls : List Id)
  | done
  | notFound
  | boolR (b : Bool)
  | protoErr
deriving DecidableEq, Repr

/-- Length-prefixed encoding of a byte sequence on the wire. -/
def encL (l : List Nat) : List Nat := l.length :: l

/-- Decode of `encL`: value and remaining stream. -/
def decL : List Nat → Option (List Nat × List Nat)
  | n :: rest =>
    if n ≤ rest.length then some (rest.take n, rest.drop n) else none
  | [] => none

theorem decL_encL (l rest : List Nat) :
    decL (encL l ++ rest) = some (l, rest) := by
  show decL (l.length :: (l ++ rest)) = some (l, rest)
  simp only [decL]
  rw [if_pos (by simp)]
  rw [List.take_left, List.drop_left]

/-- Count-prefixed encoding of a list of byte sequences. -/
def encLL (ls : List (List Nat)) : List Nat :=
  ls.length :: (ls.map encL).flatten

/-- Decode `n` length-prefixed byte sequences from the stream. -/
def decN : Nat → List Nat → Option (List (List Nat) × List Nat)
  | 0, rest => some ([], rest)
  | n + 1, rest =>
    match decL rest with
    | some (l, rest2) =>
      match decN n rest2 with
      | some (ls, rest3) => some (l :: ls, rest3)
      | none => none
    | none => none

/-- Decode of `encLL`. -/
def decLL : List Nat → Option (List (List Nat) × List Nat)
  | n :: rest => decN n rest
  | [] => none

theorem decN_enc (ls : List (List Nat)) (rest : List Nat) :
    decN ls.length ((ls.map encL).flatten ++ rest) = some (ls, rest) := by
  induction ls generalizing rest with
  | nil => rfl
  | cons l tl ih =>
    simp only [List.map_cons, List.flatten_cons, List.length_cons,
      List.append_assoc]
    show decN (tl.length + 1) (encL l ++ ((tl.map encL).flatten ++ rest)) =
      some (l :: tl, rest)
    simp only [decN, decL_encL, ih]

theorem decLL_encLL (ls : List (List Nat)) (rest : List Nat) :
    decLL (encLL ls ++ rest) = some (ls, rest) := by
  show decLL (ls.length :: ((ls.map encL).flatten ++ rest)) = some (ls, rest)
  simp only [decLL, decN_enc]

/-- Numeric tag of a blob type on the wire. -/
def tyTag : BlobType → Nat
  | .data => 0
  | .key => 1
  | .config => 2
  | .index => 3
  | .lock => 4

/-- Decode of `tyTag`. -/
def tyOfTag : Nat → Option BlobType
  | 0 => some .data
  | 1 => some .key
  | 2 => some .config
  | 3 => some .index
  | 4 => some .lock
  | _ => none

theorem tyOfTag_tyTag (t : BlobType) : tyOfTag (tyTag t) = some t := by
  cases t <;> rfl

/-- Modelled from the spec: request serialization onto the byte stream
(§4.3 "serializing requests over a byte stream"). -/
def encReq : Req → List Nat
  | .get t i => 0 :: tyTag t :: encL i
  | .put t i d => 1 :: tyTag t :: (encL i ++ encL d)
  | .list t => [2, tyTag t]
  | .test t i => 3 :: tyTag t :: encL i
  | .remove t i => 4 :: tyTag t :: encL i

/-- Modelled from the spec: request parsing by the remote process (§4.3). -/
def decReq : List Nat → Option Req
  | 0 :: tt :: rest =>
    (tyOfTag tt).bind fun t =>
      (decL rest).bind fun p =>
        if p.2 = [] then some (.get t p.1) else none
  | 1 :: tt :: rest =>
    (tyOfTag tt).bind fun t =>
      (decL rest).bind fun p =>
        (decL p.2).bind fun q =>
          if q.2 = [] then some (.put t p.1 q.1) else none
  | 2 :: tt :: rest =>
    (tyOfTag tt).bind fun t =>
      if rest = [] then some (.list t) else none
  | 3 :: tt :: rest =>
    (tyOfTag tt).bind fun t =>
      (decL rest).bind fun p =>
        if p.2 = [] then some (.test t p.1) else none
  | 4 :: tt :: rest =>
    (tyOfTag tt).bind fun t =>
      (decL rest).bind fun p =>
        if p.2 = [] then some (.remove t p.1) else none
  | _ => none

theorem decReq_encReq (r : Req) : decReq (encReq r) = some r := by
  cases r with
  | get t i =>
    show decReq (0 :: tyTag t :: encL i) = some (.get t i)
    have h : encL i = encL i ++ [] := by simp
    rw [h]
    simp only [decReq, tyOfTag_tyTag, Option.some_bind, decL_encL]
    rfl
  | put t i d =>
    show decReq (1 :: tyTag t :: (encL i ++ encL d)) = some (.put t i d)
    have h : encL i ++ encL d = encL i ++ (encL d ++ []) := by simp
    rw [h]
    simp only [decReq, tyOfTag_tyTag, Option.some_bind, decL_encL]
    rfl
  | list t =>
    show decReq [2, tyTag t] = some (.list t)
    simp only [decReq, tyOfTag_tyTag, Option.some_bind]
    rfl
  | test t i =>
    show decReq (3 :: tyTag t :: encL i) = some (.test t i)
    have h : encL i = encL i ++ [] := by simp
    rw [h]
    simp only [decReq, tyOfTag_tyTag, Option.some_bind, decL_encL]
    rfl
  | remove t i =>
    show decReq (4 :: tyTag t :: encL i) = some (.remove t i)
    have h : encL i = encL i ++ [] := by simp
    rw [h]
    simp only [decReq, tyOfTag_tyTag, Option.some_bind, decL_encL]
    rfl

/-- Modelled from the spec: response serialization (§4.3). -/
def encResp : Resp → List Nat
  | .bytes d => 0 :: encL d
  | .ids ls => 1 :: encLL ls
  | .done => [2]
  | .notFound => [3]
  | .boolR b => [4, cond b 1 0]
  | .protoErr => [5]

/-- Modelled from the spec: response parsing by the client (§4.3). -/
def decResp : List Nat → Option Resp
  | 0 :: rest =>
    (decL rest).bind fun p =>
      if p.2 = [] then some (.bytes p.1) else none
  | 1 :: rest =>
    (decLL rest).bind fun p =>
      if p.2 = [] then some (.ids p.1) else none
  | [2] => some .done
  | [3] => some .notFound
  | [4, 0] => some (.boolR false)
  | [4, 1] => some (.boolR true)
  | [5] => some .protoErr
  | _ => none

theorem decResp_encResp (r : Resp) : decResp (encResp r) = some r := by
  cases r with
  | bytes d =>
    show decResp (0 :: encL d) = some (.bytes d)
    have h : encL d = encL d ++ [] := by simp
    rw [h]
    simp only [decResp, decL_encL]
    rfl
  | ids ls =>
    show decResp (1 :: encLL ls) = some (.ids ls)
    have h : encLL ls = encLL ls ++ [] := by simp
    rw [h]
    simp only [decResp, decLL_encLL]
    rfl
  | done => rfl
  | notFound => rfl
  | boolR b => cases b <;> rfl
  | protoErr => rfl

/-- Modelled from the spec: the cooperating remote process — it "performs
the equivalent of the local transport's filesystem operations on its side"
(§4.3), one request/response exchange per operation. -/
def serve (st : Store) : Req → Resp × Store
  | .get t i =>
    match getBlob st t i with
    | some d => (.bytes d, st)
    | none => (.notFound, st)
  | .put t i d => (.done, putBlob st t i d)
  | .list t => (.ids (listType st t), st)
  | .test t i => (.boolR (testBlob st t i), st)
  | .remove t i =>
    match removeBlob st t i with
    | some st2 => (.done, st2)
    | none => (.notFound, st)

/-- Modelled from the spec: one wire exchange — the remote process reads
one serialized request from the stream, acts, and writes one serialized
response (§4.3). -/
def serveWire (st : Store) (msg : List Nat) : List Nat × Store :=
  match decReq msg with
  | some req =>
    let rs := serve st req
    (encResp rs.1, rs.2)
  | none => (encResp .protoErr, st)

/-- Modelled from the spec: `Get` over the remote transport — serialize the
request, exchange it with the remote process, parse the response (§4.3). -/
def remoteGet (st : Store) (t : BlobType) (i : Id) : Option Bytes :=
  match decResp (serveWire st (encReq (.get t i))).1 with
  | some (.bytes d) => some d
  | _ => none

/-- Modelled from the spec: `Put` over the remote transport; the resulting
remote-side store (§4.3). -/
def remotePut (st : Store) (t : BlobType) (i : Id) (d : Bytes) : Store :=
  (serveWire st (encReq (.put t i d))).2

/-- Modelled from the spec: `List` over the remote transport (§4.3). -/
def remoteList (st : Store) (t : BlobType) : List Id :=
  match decResp (serveWire st (encReq (.list t))).1 with
  | some (.ids ls) => ls
  | _ => []

theorem remoteGet_eq_getBlob (st : Store) (t : BlobType) (i : Id) :
    remoteGet st t i = getBlob st t i := by
  unfold remoteGet serveWire
  rw [decReq_encReq]
  cases hg : getBlob st t i with
  | none =>
    simp only [serve, hg, decResp_encResp]
  | some d =>
    simp only [serve, hg, decResp_encResp]

theorem remotePut_eq_putBlob (st : Store) (t : BlobType) (i : Id)
    (d : Bytes) : remotePut st t i d = putBlob st t i d := by
  unfold remotePut serveWire
  rw [decReq_encReq]
  rfl

theorem remoteList_eq_listType (st : Store) (t : BlobType) :
    remoteList st t = listType st t := by
  unfold remoteList serveWire
  rw [decReq_encReq]
  simp only [serve, decResp_encResp]

/-! ## Claims C4 and C5 (backend contract) -/

theorem getBlob_putBlob_digest (st : Store) (t : BlobType) (c : Bytes)
    (hwf : WF st) :
    getBlob (putBlob st t (digest c) c) t (digest c) = some c := by
  unfold putBlob putBlobR
  cases hg : getBlob st t (digest c) with
  | none =>
    rw [if_neg (by simp [hg])]
    exact getBlob_append_single st t (digest c) c hg
  | some d =>
    rw [if_pos (by simp [hg])]
    obtain ⟨e, hfind⟩ : ∃ e, st.find? (fun e => e.1 = (t, digest c)) = some e
        ∧ e.2 = d := by
      unfold getBlob at hg
      cases hf : st.find? (fun e => e.1 = (t, digest c)) with
      | none => rw [hf] at hg; simp at hg
      | some e => rw [hf] at hg; exact ⟨e, rfl, by simpa using hg⟩
    obtain ⟨hfind, hed⟩ := hfind
    have hmem : e ∈ st := List.mem_of_find?_eq_some hfind
    have hkey : e.1 = (t, digest c) := by
      have := List.find?_some hfind
      simpa using this
    have hdig : e.1.2 = digest e.2 := hwf e hmem
    rw [hkey] at hdig
    have : c = e.2 := digest_injective hdig
    rw [hg, hed.symm, this]

/-- C4: for every blob content C and blob type T, `Put(T, id(C), C)`
followed by `Get(T, id(C))` returns exactly C, on any content-addressed
store; and the round-trip holds identically for the Local and the Remote
transport — indeed (last conjuncts) every Remote `Get`/`Put`/`List` agrees
pointwise with its Local counterpart, the Remote side exchanging
serialized requests and responses with the modelled remote process. -/
theorem c4_put_get_roundtrip_both_transports (st : Store) (t : BlobType)
    (c : Bytes) (hwf : WF st) :
    getBlob (putBlob st t (digest c) c) t (digest c) = some c ∧
    remoteGet (remotePut st t (digest c) c) t (digest c) = some c ∧
    (∀ (st2 : Store) (t2 : BlobType) (i2 : Id) (d2 : Bytes),
      remoteGet st2 t2 i2 = getBlob st2 t2 i2 ∧
      remotePut st2 t2 i2 d2 = putBlob st2 t2 i2 d2 ∧
      remoteList st2 t2 = listType st2 t2) :=
  ⟨getBlob_putBlob_digest st t c hwf,
    by
      rw [remotePut_eq_putBlob, remoteGet_eq_getBlob]
      exact getBlob_putBlob_digest st t c hwf,
    fun st2 t2 i2 d2 =>
      ⟨remoteGet_eq_getBlob st2 t2 i2, remotePut_eq_putBlob st2 t2 i2 d2,
        remoteList_eq_listType st2 t2⟩⟩

theorem c4_put_get_roundtrip_both_transports_witness :
    WF emptyStore ∧
    (getBlob (putBlob emptyStore .data (digest [9, 8]) [9, 8]) .data
        (digest [9, 8]) = some [9, 8] ∧
      remoteGet (remotePut emptyStore .data (digest [9, 8]) [9, 8]) .data
        (digest [9, 8]) = some [9, 8]) :=
  ⟨fun e he => absurd he (List.not_mem_nil e),
    ⟨(c4_put_get_roundtrip_both_transports emptyStore .data [9, 8]
        (fun e he => absurd he (List.not_mem_nil e))).1,
      (c4_put_get_roundtrip_both_transports emptyStore .data [9, 8]
        (fun e he => absurd he (List.not_mem_nil e))).2.1⟩⟩

/-- C5: `Put` is idempotent: for every type T, identifier id and content C,
a second `Put(T, id, C)` leaves the store exactly as after the first and
reports the no-op success of §4.1 (the outcome type has no AlreadyExists
error at all), and `List` shows no duplication — on any store listing id at
most once, after the Put the identifier is listed exactly once. -/
theorem c5_put_idempotent (st : Store) (t : BlobType) (i : Id) (c : Bytes)
    (h : (listType st t).count i ≤ 1) :
    putBlob (putBlob st t i c) t i c = putBlob st t i c ∧
    (putBlobR (putBlob st t i c) t i c).1 = .existedNoop ∧
    (listType (putBlob st t i c) t).count i = 1 :=
  ⟨putBlob_of_isSome _ t i c (getBlob_putBlob_isSome st t i c),
    putBlobR_of_isSome _ t i c (getBlob_putBlob_isSome st t i c),
    count_listType_putBlob st t i c h⟩

theorem c5_put_idempotent_witness :
    ((listType emptyStore .data).count [7] ≤ 1) ∧
    (putBlob (putBlob emptyStore .data [7] [5]) .data [7] [5] =
        putBlob emptyStore .data [7] [5] ∧
      (putBlobR (putBlob emptyStore .data [7] [5]) .data [7] [5]).1 =
        .existedNoop ∧
      (listType (putBlob emptyStore .data [7] [5]) .data).count [7] = 1) :=
  ⟨by decide, c5_put_idempotent emptyStore .data [7] [5] (by decide)⟩

/-! ## CLI entry point, embedded from `src/cmd/restic/main.go`

The definitions below are translated from the one source file under
`src/`: the URL-driven backend selection of `open` (lines 95–113) and
`create` (lines 116–134), `readPassword` (lines 36–53), `CmdInit.Execute`
(lines 57–88) and `OpenRepo` (lines 136–154). -/

/-- The fields of Go's `net/url.URL` used by `main.go`: `Scheme`, `User`
(with `Username()`; `none` models a nil `*Userinfo`), `Host` (including
any port, as in Go) and `Path`. -/
structure GoURL where
  scheme : String
  user : Option String
  host : String
  path : String
deriving DecidableEq, Repr

/-- Split a character stream at the first `"://"`.  Returns the characters
before the colon and the characters after the double slash. -/
def splitScheme : List Char → Option (List Char × List Char)
  | [] => none
  | c :: rest =>
    if c = ':' then
      match rest with
      | '/' :: '/' :: r => some ([], r)
      | _ => none
    else
      match splitScheme rest with
      | some (sch, r) => some (c :: sch, r)
      | none => none

/-- Scheme characters accepted by Go's `net/url` (RFC 3986). -/
def isSchemeChar (c : Char) : Bool :=
  c.isAlpha || c.isDigit || c == '+' || c == '-' || c == '.'

/-- Model of Go's `net/url.Parse`, restricted to the location forms
documented at `main.go:91-94`: a bare filesystem path (no scheme — the
whole string becomes `Path`) and `scheme://[user@]host/path` (`Path`
keeps its leading slash and is empty when the authority is not followed
by a slash, exactly as in Go).  Opaque `scheme:data` forms, percent
escapes and parse errors are outside the modelled grammar. -/
def urlParse (s : String) : GoURL :=
  match splitScheme s.data with
  | some (c :: cs, rest) =>
    if c.isAlpha && (c :: cs).all isSchemeChar then
      let auth := rest.takeWhile (fun a => a != '/')
      let pathChars := rest.dropWhile (fun a => a != '/')
      if auth.contains '@' then
        ⟨String.mk (c :: cs),
          some (String.mk (auth.takeWhile (fun a => a != '@'))),
          String.mk ((auth.dropWhile (fun a => a != '@')).drop 1),
          String.mk pathChars⟩
      else
        ⟨String.mk (c :: cs), none, String.mk auth, String.mk pathChars⟩
    else ⟨"", none, "", s⟩
  | _ => ⟨"", none, "", s⟩

/-- The backend selected by `open`/`create`: `local.Open/Create(root)` or
`sftp.Open/Create(root, program, args...)`. -/
inductive BackendChoice
  | localB (root : String)
  | sftpB (root : String) (program : String) (args : List String)
deriving DecidableEq, Repr

/-- Outcome of a Go function that either returns normally or panics.
Parse errors from `url.Parse` and I/O errors from the backend packages are
environmental and outside this model. -/
inductive GoOutcome (α : Type)
  | ok (val : α)
  | panicked
deriving DecidableEq, Repr

/-- The remote-shell argument list built by `open`/`create`
(`main.go:105-111` and `126-132`): the host, then `-l user` when
`url.User != nil && url.User.Username() != ""`, then `-s sftp`. -/
def sshArgs (u : GoURL) : List String :=
  let args := [u.host]
  let args :=
    match u.user with
    | some name => if name ≠ "" then args ++ ["-l", name] else args
    | none => args
  args ++ ["-s", "sftp"]

/-- `open` from `main.go:95-113`: parse the location; empty scheme selects
the local backend rooted at `url.Path`; otherwise the sftp backend is
selected with root `url.Path[1:]` — which panics (slice bounds out of
range) when `url.Path` is empty, as Go's `Path[1:]` does. -/
def openBackend (u : String) : GoOutcome BackendChoice :=
  let url := urlParse u
  if url.scheme = "" then .ok (.localB url.path)
  else if url.path = "" then .panicked
  else .ok (.sftpB (url.path.drop 1) "ssh" (sshArgs url))

/-- `create` from `main.go:116-134`; the source duplicates `open`'s body
with `local.Create`/`sftp.Create` in place of the Open variants. -/
def createBackend (u : String) : GoOutcome BackendChoice :=
  let url := urlParse u
  if url.scheme = "" then .ok (.localB url.path)
  else if url.path = "" then .panicked
  else .ok (.sftpB (url.path.drop 1) "ssh" (sshArgs url))

/-- `readPassword` from `main.go:36-53`: when the environment-variable
name is non-empty and the variable's value is non-empty, that value is
returned; otherwise the prompt is written and a line is read from the
terminal.  `getenv` models `os.Getenv` (empty string for unset), `term`
the successful terminal read; the Boolean records whether the interactive
prompt path was taken. -/
def readPassword (env : String) (prompt : String) (getenv : String → String)
    (term : String) : String × Bool :=
  if env ≠ "" then
    if getenv env ≠ "" then (getenv env, false)
    else (term, true)
  else (term, true)

/-- Observable backend-touching effects of the command functions. -/
inductive Eff
  | createBackendAt (loc : String)
  | openBackendAt (loc : String)
  | initRepo
  | searchKey
deriving DecidableEq, Repr

/-- Result of a command function: a normal return (`ok` or an error
value), a process exit via `errx`/`os.Exit`, or a panic. -/
inductive CmdResult
  | ok
  | errReturn (msg : String)
  | exited (code : Nat)
  | panicked
deriving DecidableEq, Repr

/-- `CmdInit.Execute` from `main.go:57-88`, with the process environment
made explicit: `repo` is `opts.Repo`, `getenv` models `os.Getenv`,
`t1`/`t2` the two terminal reads, and `createRes`/`initRes` the
environmental outcomes of materializing the chosen backend and of
`repository.New(be).Init(pw)`.  The effect trace records every
backend-touching step in order. -/
def CmdInit.Execute (repo : String) (args : List String)
    (getenv : String → String) (t1 t2 : String)
    (createRes : Except String Unit) (initRes : Except String Unit) :
    CmdResult × List Eff :=
  if repo = "" then
    (.errReturn "Please specify repository location (-r)", [])
  else
    let pw :=
      (readPassword "RESTIC_PASSWORD" "enter password for new backend: "
        getenv t1).1
    let pw2 :=
      (readPassword "RESTIC_PASSWORD" "enter password again: "
        getenv t2).1
    if pw ≠ pw2 then (.exited 1, [])
    else
      match createBackend repo with
      | .panicked => (.panicked, [])
      | .ok _ =>
        match createRes with
        | .error _ => (.exited 1, [.createBackendAt repo])
        | .ok _ =>
          match initRes with
          | .error _ => (.exited 1, [.createBackendAt repo, .initRepo])
          | .ok _ => (.ok, [.createBackendAt repo, .initRepo])

/-- `OpenRepo` from `main.go:136-154`, with the process environment made
explicit as in `CmdInit.Execute`; `openRes` is the environmental outcome
of binding the chosen backend, `searchRes` that of
`repository.SearchKey`. -/
def OpenRepo (repo : String) (getenv : String → String) (t1 : String)
    (openRes : Except String Unit) (searchRes : Except String Unit) :
    CmdResult × List Eff :=
  if repo = "" then
    (.errReturn "Please specify repository location (-r)", [])
  else
    match openBackend repo with
    | .panicked => (.panicked, [])
    | .ok _ =>
      match openRes with
      | .error e => (.errReturn e, [.openBackendAt repo])
      | .ok _ =>
        let pw :=
          (readPassword "RESTIC_PASSWORD" "enter password for repository: "
            getenv t1).1
        match searchRes with
        | .error e =>
          (.errReturn ("unable to open repo: " ++ e),
            [.openBackendAt repo, .searchKey])
        | .ok _ => (.ok, [.openBackendAt repo, .searchKey])

/-! ## Claims C6, C8, C9, C10 (CLI entry point) -/

theorem dropWhile_slash (l : List Char) :
    l.dropWhile (fun a => a != '/') = [] ∨
    ∃ r, l.dropWhile (fun a => a != '/') = '/' :: r := by
  induction l with
  | nil => exact Or.inl rfl
  | cons c tl ih =>
    rw [List.dropWhile_cons]
    by_cases h : (c != '/') = true
    · rw [if_pos h]
      exact ih
    · rw [if_neg h]
      right
      have hc : c = '/' := by simpa using h
      exact ⟨tl, by rw [hc]⟩

theorem mk_slash_cons (r : List Char) :
    String.mk ('/' :: r) = "/" ++ (String.mk ('/' :: r)).drop 1 := by
  apply String.ext
  rw [String.data_append, String.data_drop]
  rfl

theorem urlParse_none_eq (s : String) (hsp : splitScheme s.data = none) :
    urlParse s = ⟨"", none, "", s⟩ := by
  unfold urlParse
  rw [hsp]

theorem urlParse_nilScheme_eq (s : String) (rest : List Char)
    (hsp : splitScheme s.data = some ([], rest)) :
    urlParse s = ⟨"", none, "", s⟩ := by
  unfold urlParse
  rw [hsp]

theorem urlParse_cons_eq (s : String) (c : Char) (cs rest : List Char)
    (hsp : splitScheme s.data = some (c :: cs, rest)) :
    urlParse s =
      if c.isAlpha && (c :: cs).all isSchemeChar then
        if (rest.takeWhile (fun a => a != '/')).contains '@' then
          ⟨String.mk (c :: cs),
            some (String.mk ((rest.takeWhile (fun a => a != '/')).takeWhile
              (fun a => a != '@'))),
            String.mk (((rest.takeWhile (fun a => a != '/')).dropWhile
              (fun a => a != '@')).drop 1),
            String.mk (rest.dropWhile (fun a => a != '/'))⟩
        else
          ⟨String.mk (c :: cs), none,
            String.mk (rest.takeWhile (fun a => a != '/')),
            String.mk (rest.dropWhile (fun a => a != '/'))⟩
      else ⟨"", none, "", s⟩ := by
  unfold urlParse
  rw [hsp]

theorem urlParse_path_shape (s : String) (h : (urlParse s).scheme ≠ "") :
    (urlParse s).path = "" ∨
    (urlParse s).path = "/" ++ (urlParse s).path.drop 1 := by
  cases hsp : splitScheme s.data with
  | none =>
    rw [urlParse_none_eq s hsp] at h
    simp at h
  | some p =>
    obtain ⟨sch, rest⟩ := p
    cases sch with
    | nil =>
      rw [urlParse_nilScheme_eq s rest hsp] at h
      simp at h
    | cons c cs =>
      rw [urlParse_cons_eq s c cs rest hsp] at h ⊢
      by_cases hv : (c.isAlpha && (c :: cs).all isSchemeChar) = true
      · rw [if_pos hv] at h ⊢
        by_cases ha :
            ((rest.takeWhile (fun a => a != '/')).contains '@') = true
        · rw [if_pos ha] at h ⊢
          rcases dropWhile_slash rest with hd | ⟨r, hd⟩
          · left
            show String.mk (rest.dropWhile (fun a => a != '/')) = ""
            rw [hd]
          · right
            show String.mk (rest.dropWhile (fun a => a != '/')) =
              "/" ++ (String.mk (rest.dropWhile (fun a => a != '/'))).drop 1
            rw [hd]
            exact mk_slash_cons r
        · rw [if_neg ha] at h ⊢
          rcases dropWhile_slash rest with hd | ⟨r, hd⟩
          · left
            show String.mk (rest.dropWhile (fun a => a != '/')) = ""
            rw [hd]
          · right
            show String.mk (rest.dropWhile (fun a => a != '/')) =
              "/" ++ (String.mk (rest.dropWhile (fun a => a != '/'))).drop 1
            rw [hd]
            exact mk_slash_cons r
      · rw [if_neg hv] at h
        simp at h

theorem sshArgs_host_mem (u : GoURL) : u.host ∈ sshArgs u := by
  unfold sshArgs
  cases hu : u.user with
  | none => simp
  | some name =>
    by_cases hn : name ≠ "" <;> simp [hn]

theorem sshArgs_user_mem (u : GoURL) (n : String) (hu : u.user = some n)
    (hn : n ≠ "") : n ∈ sshArgs u := by
  unfold sshArgs
  rw [hu]
  simp [hn]

/-- C6: for every location string, an absent parsed scheme selects the
Local transport rooted at the parsed path, in both `open` and `create`;
a present scheme (on the documented grammar, whose path begins with the
separator — hence is non-empty) selects the Remote transport: the root
argument is the path with its leading separator stripped (prepending the
separator back restores the path), and the remote-shell argument list
carries the host and, when present and non-empty, the user. -/
theorem c6_scheme_selects_transport (s : String) :
    ((urlParse s).scheme = "" →
      openBackend s = .ok (.localB (urlParse s).path) ∧
      createBackend s = .ok (.localB (urlParse s).path)) ∧
    ((urlParse s).scheme ≠ "" → (urlParse s).path ≠ "" →
      openBackend s =
        .ok (.sftpB ((urlParse s).path.drop 1) "ssh"
          (sshArgs (urlParse s))) ∧
      createBackend s =
        .ok (.sftpB ((urlParse s).path.drop 1) "ssh"
          (sshArgs (urlParse s))) ∧
      "/" ++ (urlParse s).path.drop 1 = (urlParse s).path ∧
      (urlParse s).host ∈ sshArgs (urlParse s) ∧
      (∀ n, (urlParse s).user = some n → n ≠ "" →
        n ∈ sshArgs (urlParse s))) := by
  constructor
  · intro h
    constructor
    · unfold openBackend
      rw [if_pos h]
    · unfold createBackend
      rw [if_pos h]
  · intro h hp
    refine ⟨?_, ?_, ?_, sshArgs_host_mem _, fun n hu hn =>
      sshArgs_user_mem _ n hu hn⟩
    · unfold openBackend
      rw [if_neg h, if_neg hp]
    · unfold createBackend
      rw [if_neg h, if_neg hp]
    · rcases urlParse_path_shape s h with h0 | hsh
      · exact absurd h0 hp
      · exact hsh.symm

theorem c6_scheme_selects_transport_witness :
    ((urlParse "sftp://user@host/foo/bar").scheme ≠ "" ∧
      (urlParse "sftp://user@host/foo/bar").path ≠ "") ∧
    (openBackend "sftp://user@host/foo/bar" =
        .ok (.sftpB ((urlParse "sftp://user@host/foo/bar").path.drop 1)
          "ssh" (sshArgs (urlParse "sftp://user@host/foo/bar"))) ∧
      createBackend "sftp://user@host/foo/bar" =
        .ok (.sftpB ((urlParse "sftp://user@host/foo/bar").path.drop 1)
          "ssh" (sshArgs (urlParse "sftp://user@host/foo/bar"))) ∧
      "/" ++ (urlParse "sftp://user@host/foo/bar").path.drop 1 =
        (urlParse "sftp://user@host/foo/bar").path ∧
      (urlParse "sftp://user@host/foo/bar").host ∈
        sshArgs (urlParse "sftp://user@host/foo/bar") ∧
      (∀ n, (urlParse "sftp://user@host/foo/bar").user = some n → n ≠ "" →
        n ∈ sshArgs (urlParse "sftp://user@host/foo/bar"))) :=
  ⟨⟨by decide, by decide⟩,
    (c6_scheme_selects_transport "sftp://user@host/foo/bar").2 (by decide)
      (by decide)⟩

/-- C8: the claim that a non-empty parsed scheme guarantees a non-empty
parsed path — so that `url.Path[1:]` is in bounds and `open`/`create`
return a value or an error on every input — fails on the code: for the
location `"sftp://host"` the parse yields scheme `"sftp"` with an empty
path, and both `open` and `create` panic on the out-of-range slice
`url.Path[1:]` instead of returning. -/
theorem c8_empty_remote_path_panics :
    (urlParse "sftp://host").scheme = "sftp" ∧
    (urlParse "sftp://host").scheme ≠ "" ∧
    (urlParse "sftp://host").path = "" ∧
    openBackend "sftp://host" = .panicked ∧
    createBackend "sftp://host" = .panicked := by
  refine ⟨by decide, by decide, by decide, by decide, by decide⟩

/-- C9: with the repository location option empty, `CmdInit.Execute` and
`OpenRepo` both return the "Please specify repository location" error at
once, with an empty effect trace — no backend is created, opened or
otherwise touched, whatever the environment or the environmental
outcomes. -/
theorem c9_empty_location_rejected_early (args : List String)
    (getenv : String → String) (t1 t2 : String)
    (createRes initRes openRes searchRes : Except String Unit) :
    CmdInit.Execute "" args getenv t1 t2 createRes initRes =
      (.errReturn "Please specify repository location (-r)", []) ∧
    OpenRepo "" getenv t1 openRes searchRes =
      (.errReturn "Please specify repository location (-r)", []) := by
  constructor
  · unfold CmdInit.Execute
    rw [if_pos rfl]
  · unfold OpenRepo
    rw [if_pos rfl]

/-- C10: `readPassword` returns the value of the named environment
variable, without prompting, exactly when the variable name is non-empty
and the variable's value is non-empty; when the name is empty or the
variable is unset or empty it falls back to the interactive prompt (the
Boolean of the model records that the prompt path ran). -/
theorem c10_readPassword_env_first (env prompt : String)
    (getenv : String → String) (term : String) :
    (env ≠ "" → getenv env ≠ "" →
      readPassword env prompt getenv term = (getenv env, false)) ∧
    (env = "" ∨ getenv env = "" →
      readPassword env prompt getenv term = (term, true)) := by
  constructor
  · intro h1 h2
    unfold readPassword
    rw [if_pos h1, if_pos h2]
  · intro h
    unfold readPassword
    rcases h with h | h
    · rw [if_neg (by simp [h])]
    · by_cases he : env ≠ ""
      · rw [if_pos he, if_neg (by simp [h])]
      · rw [if_neg he]

theorem c10_readPassword_env_first_witness :
    (("RESTIC_PASSWORD" : String) ≠ "" ∧
      (fun n => if n = "RESTIC_PASSWORD" then "secret" else "")
        "RESTIC_PASSWORD" ≠ "") ∧
    readPassword "RESTIC_PASSWORD" "enter password: "
      (fun n => if n = "RESTIC_PASSWORD" then "secret" else "")
      "typed" = ("secret", false) :=
  ⟨⟨by decide, by decide⟩,
    (c10_readPassword_env_first "RESTIC_PASSWORD" "enter password: "
      (fun n => if n = "RESTIC_PASSWORD" then "secret" else "")
      "typed").1 (by decide) (by decide)⟩
